import Mathlib

/-!
Verification development for the nokotan chat bot (Python sources under
`src/`).  The Python code is shallowly embedded: SQLite rows become an
association list of `(namespace, key, field) ↦ value` entries, the
process-wide `user_states` dictionary becomes an association list that can
hold both room maps and stray scalar entries (the heterogeneity matters,
see `handle_state_changes`), `time.time()` values become rationals, and
command handlers are modelled by their observable outcome (normal return
or raised exception message).
-/

namespace Nokotan

/-! ## Values stored in the Key-Field Store (`core/sql.py`)

`SQLHandler.set` stores `str(value)` in a TEXT column, so scalar values are
strings.  The `edit_history` field holds a JSON-serialized flat map from a
timestamp string to a prior body (or JSON `null` when the body was absent);
it is modelled structurally rather than through a string codec. -/

inductive Val where
  | str : String → Val
  | jmap : List (String × Option String) → Val
  deriving DecidableEq, Repr

/-- Python truthiness of an optional fetched value: `None` is falsy, a string
is truthy iff nonempty, a dict is truthy iff nonempty. -/
def valTruthy : Option Val → Bool
  | none => false
  | some (.str s) => s ≠ ""
  | some (.jmap m) => m ≠ []

/-- The string content of a fetched scalar value (used where the Python code
uses a fetched TEXT value as a dict key or comparison operand). -/
def valStr : Option Val → String
  | some (.str s) => s
  | _ => ""

/-- `json.loads(x or "{}")` applied to a fetched `edit_history` value. -/
def jsonLoadsMap : Option Val → List (String × Option String)
  | some (.jmap m) => m
  | _ => []

/-! ## The Key-Field Store itself (`core/sql.py`)

One row per `(namespace, key, field)`; `(key, field)` is a primary key per
namespace table and `set` is `INSERT OR REPLACE`. -/

structure Row where
  ns : String
  key : String
  fld : String
  value : Val
  deriving DecidableEq, Repr

abbrev Store := List Row

/-- `SQLHandler.get`: fetch the value at `(ns, key, fld)`, `none` if absent. -/
def dbGet : Store → String → String → String → Option Val
  | [], _, _, _ => none
  | r :: rest, ns, k, f =>
    if r.ns = ns ∧ r.key = k ∧ r.fld = f then some r.value else dbGet rest ns k f

/-- Remove the row at `(ns, key, fld)` (the REPLACE half of upsert). -/
def dbErase : Store → String → String → String → Store
  | [], _, _, _ => []
  | r :: rest, ns, k, f =>
    if r.ns = ns ∧ r.key = k ∧ r.fld = f then dbErase rest ns k f
    else r :: dbErase rest ns k f

/-- `SQLHandler.set`: `INSERT OR REPLACE` of one `(key, field, value)` row. -/
def dbSet (db : Store) (ns k f : String) (v : Val) : Store :=
  ⟨ns, k, f, v⟩ :: dbErase db ns k f

/-- `SQLHandler.delete(plugin_name, key)` without a field: delete every row
of the namespace whose key matches. -/
def dbDeleteKey : Store → String → String → Store
  | [], _, _ => []
  | r :: rest, ns, k =>
    if r.ns = ns ∧ r.key = k then dbDeleteKey rest ns k
    else r :: dbDeleteKey rest ns k

/-- `SQLHandler.get_all_fields`: the `field ↦ value` map of one key. -/
def dbGetAllFields (db : Store) (ns k : String) : List (String × Val) :=
  match db with
  | [] => []
  | r :: rest =>
    if r.ns = ns ∧ r.key = k then (r.fld, r.value) :: dbGetAllFields rest ns k
    else dbGetAllFields rest ns k

/-! ## Association-list helpers shared by the embeddings of Python dicts. -/

/-- Python `d.get(k)` on a dict modelled as an association list. -/
def alookup {α : Type} : List (String × α) → String → Option α
  | [], _ => none
  | (k, v) :: rest, k' => if k = k' then some v else alookup rest k'

/-- Python `d[k] = v`: replace in place if the key exists, else append. -/
def aupsert {α : Type} : List (String × α) → String → α → List (String × α)
  | [], k, v => [(k, v)]
  | (k', v') :: rest, k, v =>
    if k' = k then (k', v) :: rest else (k', v') :: aupsert rest k v

/-- Python `d.pop(k)` (key removal half). -/
def aremove {α : Type} : List (String × α) → String → List (String × α)
  | [], _ => []
  | (k', v') :: rest, k =>
    if k' = k then aremove rest k else (k', v') :: aremove rest k

/-! ## History & Correction Ledger (`core/xmpp.py`) -/

/-- `Bot._store_chat_history` (xmpp.py 836-844): unconditionally upserts the
`jid` (when the nick resolved), `nick`, `stanza_id`, `body` and `timestamp`
fields of the `(muc, message_id)` entry.  There is no previously-unseen
check in this function. -/
def store_chat_history (db : Store) (muc nick mid stanzaId body : String)
    (jid : Option String) (now : Int) : Store :=
  let k := muc ++ "_" ++ mid
  let db := match jid with
    | some j => dbSet db "bot_chat_history" k "jid" (.str j)
    | none => db
  let db := dbSet db "bot_chat_history" k "nick" (.str nick)
  let db := dbSet db "bot_chat_history" k "stanza_id" (.str stanzaId)
  let db := dbSet db "bot_chat_history" k "body" (.str body)
  dbSet db "bot_chat_history" k "timestamp" (.str (toString now))

/-- `Bot._store_correction_history` (xmpp.py 846-865): load the entry at
`replace_id`, push the old body into `edit_history` under
`edit_timestamp or timestamp`, then set the new body and `edit_timestamp`. -/
def store_correction_history (db : Store) (muc replaceId body : String)
    (now : Int) : Store :=
  let k := muc ++ "_" ++ replaceId
  let oldBody := dbGet db "bot_chat_history" k "body"
  let oldTs := dbGet db "bot_chat_history" k "timestamp"
  let oldEditTs := dbGet db "bot_chat_history" k "edit_timestamp"
  let hist := jsonLoadsMap (dbGet db "bot_chat_history" k "edit_history")
  let historyKey := valStr (if valTruthy oldEditTs then oldEditTs else oldTs)
  let hist := aupsert hist historyKey
    (match oldBody with | some (.str b) => some b | _ => none)
  let db := dbSet db "bot_chat_history" k "body" (.str body)
  let db := dbSet db "bot_chat_history" k "edit_timestamp" (.str (toString now))
  dbSet db "bot_chat_history" k "edit_history" (.jmap hist)

/-- `Bot.get_history_message` (xmpp.py 680-687): `none` when the entry has no
`timestamp` field, else the field map of the entry. -/
def get_history_message (db : Store) (muc mid : String) :
    Option (List (String × Val)) :=
  if dbGet db "bot_chat_history" (muc ++ "_" ++ mid) "timestamp" = none then none
  else some (dbGetAllFields db "bot_chat_history" (muc ++ "_" ++ mid))

/-- One backfill message as consumed by `Bot._process_chat_history`. -/
structure HistMsg where
  nick : String
  mid : String
  body : String
  stanzaId : String
  replaceId : Option String
  deriving DecidableEq, Repr

/-- One iteration of `Bot._process_chat_history` (xmpp.py 183-199): store the
message only when `get_history_message` finds nothing, then (re)apply a
correction when the message carries a `replace` id. -/
def process_history_message (db : Store) (muc : String) (m : HistMsg)
    (jid : Option String) (now : Int) : Store :=
  let stored := get_history_message db muc m.mid
  let db :=
    if stored = none then
      store_chat_history db muc m.nick m.mid m.stanzaId m.body jid now
    else db
  match m.replaceId with
  | some rid => store_correction_history db muc rid m.body now
  | none => db

/-! ## Presence / user-state reconciler (`core/xmpp.py`)

`Bot.user_states` is a process-wide Python dict.  Normally it maps a room
name to an inner dict of `user ↦ state`, but `_handle_state_changes`
assigns scalar strings directly into the *outer* dict
(`self.user_states["role"] = role`), so the embedding allows both shapes. -/

structure UserState where
  role : String
  affiliation : String
  status : String
  first_seen : String
  deriving DecidableEq, Repr

inductive MirrorEntry where
  | room : List (String × UserState) → MirrorEntry
  | raw : String → MirrorEntry
  deriving DecidableEq, Repr

abbrev Mirror := List (String × MirrorEntry)

/-- The inner `user ↦ state` dict of a room in the mirror (empty when the
room is absent or the entry is a stray scalar). -/
def roomOf (m : Mirror) (muc : String) : List (String × UserState) :=
  match alookup m muc with
  | some (.room r) => r
  | _ => []

/-- `Bot._save_user_state` (xmpp.py 890-912).  Each present (truthy)
argument is written to its field of `bot_user_states`; `first_seen` is only
written when not already present — an existing value blocks the write (the
code logs a warning and returns). -/
def save_user_state (db : Store) (muc user : String)
    (role affiliation status : Option String) (firstSeen : Option Int) : Store :=
  let k := muc ++ "_" ++ user
  let db := match role with
    | some r => if r ≠ "" then dbSet db "bot_user_states" k "role" (.str r) else db
    | none => db
  let db := match affiliation with
    | some a => if a ≠ "" then dbSet db "bot_user_states" k "affiliation" (.str a) else db
    | none => db
  let db := match status with
    | some s => if s ≠ "" then dbSet db "bot_user_states" k "status" (.str s) else db
    | none => db
  match firstSeen with
  | some t =>
    if t ≠ 0 then
      if valTruthy (dbGet db "bot_user_states" k "first_seen") then db
      else dbSet db "bot_user_states" k "first_seen" (.str (toString t))
    else db
  | none => db

/-- The nickname-change branch of `Bot.handle_groupchat_presence`
(xmpp.py 233-242), reached when the presence carries a new nick and no
visible JID: the mirror entry is rekeyed
(`user_states[muc][newnick] = user_states[muc].pop(user)`), a delete is
issued against namespace `"user_states"` (note: not `"bot_user_states"`)
for key `user` (note: not `muc_user`), and role/affiliation/status are
saved for the *old* key without a `first_seen` argument. -/
def nick_change_step (db : Store) (mirror : Mirror)
    (muc user newnick pRole pAffil pStatus : String) : Store × Mirror :=
  let room := roomOf mirror muc
  match alookup room user with
  | some st =>
    let room := aupsert (aremove room user) newnick st
    let db := dbDeleteKey db "user_states" user
    let db := save_user_state db muc user (some pRole) (some pAffil) (some pStatus) none
    (db, aupsert mirror muc (.room room))
  | none => (db, mirror)

/-- `Bot._handle_state_changes` (xmpp.py 265-285).  For each of role,
affiliation and status that differs from the cached `user_state`, the store
is updated via `_save_user_state` — but the in-memory mirror is updated by
`self.user_states["role"] = role` (and likewise `"affiliation"`,
`"status"`): the assignment targets the *outer* dict under the literal
field name, not `self.user_states[muc][user]`. -/
def handle_state_changes (db : Store) (mirror : Mirror) (muc user : String)
    (userState : UserState) (pRole pAffil pStatus : String) : Store × Mirror :=
  let (db, mirror) :=
    if pRole ≠ userState.role then
      (save_user_state db muc user (some pRole) none none none,
       aupsert mirror "role" (.raw pRole))
    else (db, mirror)
  let (db, mirror) :=
    if pAffil ≠ userState.affiliation then
      (save_user_state db muc user none (some pAffil) none none,
       aupsert mirror "affiliation" (.raw pAffil))
    else (db, mirror)
  if pStatus ≠ userState.status then
    (save_user_state db muc user none none (some pStatus) none,
     aupsert mirror "status" (.raw pStatus))
  else (db, mirror)

/-! ## Per-room configuration and plugin fan-out (`core/xmpp.py`)

`Bot.mucs` maps a room to its configuration dict; the values the dispatch
paths read are strings or lists of strings. -/

inductive ConfVal where
  | s : String → ConfVal
  | ls : List String → ConfVal
  deriving DecidableEq, Repr

abbrev MucConfig := List (String × ConfVal)

/-- `self.mucs.get(muc, {})`. -/
def mucCfg (mucs : List (String × MucConfig)) (muc : String) : MucConfig :=
  (alookup mucs muc).getD []

/-- `cfg.get(k, [])` for a list-valued configuration key. -/
def cfgList (cfg : MucConfig) (k : String) : List String :=
  match alookup cfg k with
  | some (.ls l) => l
  | _ => []

/-- `cfg.get(k)` for an optional list-valued configuration key. -/
def cfgListOpt (cfg : MucConfig) (k : String) : Option (List String) :=
  match alookup cfg k with
  | some (.ls l) => some l
  | _ => none

/-- `cfg.get(k, d)` for a string-valued configuration key. -/
def cfgStr (cfg : MucConfig) (k d : String) : String :=
  match alookup cfg k with
  | some (.s v) => v
  | _ => d

/-- A loaded plugin instance: its module name (what the config lists) and
the set of `handle_*` methods `hasattr` finds on it. -/
structure Plugin where
  name : String
  handlers : List String
  deriving DecidableEq, Repr

/-- `Bot._get_disabled_plugins_for_muc` (xmpp.py 674-675): reads the
configuration key spelled exactly `"disabled=_plugins"` in the source. -/
def get_disabled_plugins_for_muc (mucs : List (String × MucConfig))
    (muc : String) : List String :=
  cfgList (mucCfg mucs muc) "disabled=_plugins"

/-- `Bot._get_whitelist_plugins_for_muc` (xmpp.py 677-678). -/
def get_whitelist_plugins_for_muc (mucs : List (String × MucConfig))
    (muc : String) : Option (List String) :=
  cfgListOpt (mucCfg mucs muc) "whitelist_plugins"

/-- `Bot._send_message_to_plugins` (xmpp.py 538-569): returns, in order, the
names of the plugins whose `handle_{message_type}` coroutine is awaited. -/
def send_message_to_plugins (mucs : List (String × MucConfig))
    (plugins : List Plugin) (muc msgType : String) : List String :=
  let disabled := get_disabled_plugins_for_muc mucs muc
  let wl := get_whitelist_plugins_for_muc mucs muc
  plugins.foldl
    (fun acc p =>
      if p.name ∈ disabled ∨ (wl ≠ none ∧ p.name ∉ wl.getD []) then acc
      else if ("handle_" ++ msgType) ∈ p.handlers then acc ++ [p.name]
      else acc)
    []

/-- Python `plugin in disabled_plugins` where `plugin` is a plugin
*instance* and `disabled_plugins` a list of name *strings*
(xmpp.py 300-303): membership compares with `==`, and an instance of a
user-defined class without `__eq__` is never equal to a `str`, so the test
is always false. -/
def pluginInstanceInNames (_p : Plugin) (_names : List String) : Bool :=
  false

/-- `Bot._handle_presence_event` (xmpp.py 287-309): returns, in order, the
names of the plugins whose presence handler is awaited.  There is no
whitelist check on this path, and the disabled check is
`pluginInstanceInNames`. -/
def handle_presence_event (plugins : List Plugin) (disabled : List String)
    (eventType : String) : List String :=
  let handlerMethod := alookup
    [("room_join", "handle_room_join"),
     ("role_change", "handle_role_change"),
     ("affiliation_change", "handle_affiliation_change"),
     ("status_change", "handle_status_change")] eventType
  match handlerMethod with
  | none => []
  | some hm =>
    plugins.foldl
      (fun acc p =>
        if pluginInstanceInNames p disabled then acc
        else if hm ∈ p.handlers then acc ++ [p.name]
        else acc)
      []

/-! ## Reaction handling (`core/xmpp.py` 393-397) -/

/-- A Python attribute as an object, for modelling truthiness tests on it. -/
inductive PyAttr where
  | boundMethod : String → PyAttr
  deriving DecidableEq, Repr

/-- Python truthiness of an attribute object: a bound method defines neither
`__bool__` nor `__len__`, so it is always truthy. -/
def PyAttr.truthy : PyAttr → Bool
  | .boundMethod _ => true

/-- `Bot.handle_reactions` (xmpp.py 393-397): the guard is
`if self._should_ignore_groupchat_message:` — the truthiness of the bound
method object itself, not of a call to it — so the early return is always
taken and the fan-out below it never runs. -/
def handle_reactions (mucs : List (String × MucConfig)) (plugins : List Plugin)
    (muc : String) : List String :=
  if (PyAttr.boundMethod "_should_ignore_groupchat_message").truthy then []
  else send_message_to_plugins mucs plugins muc "reaction"

/-! ## Command registry & dispatcher (`core/commands.py`)

`time.time()` values and cooldowns are rationals; `int(x)` is Python's
truncation toward zero; a handler is modelled by its observable outcome
(`none` = returns normally, `some e` = raises an exception described by
`e`). -/

/-- Python `int()` on a float/rational: truncation toward zero. -/
def pyInt (q : ℚ) : ℤ := if 0 ≤ q then ⌊q⌋ else -⌊-q⌋

structure Command where
  name : String
  plugin : String
  category : Option String
  aliases : List String
  cooldown : ℚ
  hidden : Bool
  admin : Bool
  lastUsed : List (String × ℚ)
  behavior : Option String
  deriving DecidableEq, Repr

/-- `command.last_used.get(user, 0)`. -/
def lookupLU (m : List (String × ℚ)) (user : String) : ℚ :=
  (alookup m user).getD 0

/-- The commands registered under a category — what
`command_handler.categories.get(category, [])` holds after every command of
the registry has been registered (registration appends each categorized
command to its category list in order, commands.py 19-22). -/
def categoryMembers (cmds : List Command) (cat : String) : List Command :=
  cmds.filter (fun c => c.category = some cat)

/-- The cooldown scan of `Command.call` (commands.py 35-43): starting from
the command's own `last_used` for the user, every command of the category
with a truthy, strictly larger timestamp replaces the effective last-used
time and raises the category-cooldown flag. -/
def effectiveLastUsed (cmds : List Command) (self : Command) (user : String) :
    ℚ × Bool :=
  let own := lookupLU self.lastUsed user
  match self.category with
  | none => (own, false)
  | some cat =>
    (categoryMembers cmds cat).foldl
      (fun acc c =>
        let l := lookupLU c.lastUsed user
        if l ≠ 0 ∧ acc.1 < l then (l, true) else acc)
      (own, false)

inductive CallOutcome where
  | notice : ℤ → Bool → CallOutcome
  | executed : CallOutcome
  | raised : String → CallOutcome
  deriving DecidableEq, Repr

/-- Update the registry entry of the named command. -/
def updateCmd (cmds : List Command) (n : String) (f : Command → Command) :
    List Command :=
  cmds.map (fun c => if c.name = n then f c else c)

/-- `Command.call` (commands.py 27-59) acting on the registry: within the
cooldown window it returns the cooldown notice (with `int(cooldown -
elapsed)` as the `remaining` argument of `cooldown_message`) and leaves all
timestamps untouched; otherwise it first writes the invoking command's own
`last_used[user]` and then runs the handler, whose exception — if any —
escapes `call` uncaught. -/
def callFn (cmds : List Command) (self : Command) (user : String) (now : ℚ) :
    CallOutcome × List Command :=
  let eff := effectiveLastUsed cmds self user
  if now - eff.1 < self.cooldown then
    (.notice (pyInt (self.cooldown - (now - eff.1))) eff.2, cmds)
  else
    let cmds := updateCmd cmds self.name
      (fun c => { c with lastUsed := aupsert c.lastUsed user now })
    match self.behavior with
    | none => (.executed, cmds)
    | some e => (.raised e, cmds)

/-- The whole-second count the cooldown notice states: `cooldown_message`
(commands.py 61-68) interpolates `remaining + 1`. -/
def statedSeconds (remaining : ℤ) : ℤ := remaining + 1

/-! ### Fuzzy command suggestion (`commands.py` 154-211) -/

/-- Inner loop of `CommandHandler.levenshtein_distance`: one DP row.
`current_row` starts as `[i + 1]` and, at inner index `j`, `current_row[j]`
is the element appended last. -/
def levRow (c1 : Char) (s2 : List Char) (i : Nat) (prev : List Nat) :
    List Nat :=
  (s2.enum.foldl
    (fun cur jc =>
      let ins := prev.getD (jc.1 + 1) 0 + 1
      let del := (cur.getLast?.getD 0) + 1
      let sub := prev.getD jc.1 0 + (if c1 = jc.2 then 0 else 1)
      cur ++ [min ins (min del sub)])
    [i + 1])

/-- The row recurrence of `levenshtein_distance` after its two early
returns: fold the rows over `s1`, starting from `range(len(s2) + 1)`, and
return the last cell of the final row. -/
def levCore (s1 s2 : List Char) : Nat :=
  ((s1.enum.foldl (fun prev ic => levRow ic.2 s2 ic.1 prev)
    (List.range (s2.length + 1))).getLast?.getD 0)

/-- Body of `levenshtein_distance` once `len(s1) ≥ len(s2)` holds. -/
def levBase (s1 s2 : String) : Nat :=
  if s2.length = 0 then s1.length else levCore s1.data s2.data

/-- `CommandHandler.levenshtein_distance` (commands.py 196-211): swap so the
first string is the longer one, then run the DP. -/
def levenshtein_distance (s1 s2 : String) : Nat :=
  if s1.length < s2.length then levBase s2 s1 else levBase s1 s2

inductive SuggestOutcome where
  | none : SuggestOutcome
  | autorun : String → SuggestOutcome
  | ask : String → SuggestOutcome
  deriving DecidableEq, Repr

/-- The name carried by a produced suggestion. -/
def SuggestOutcome.produced : SuggestOutcome → Option String
  | .none => Option.none
  | .autorun s => some s
  | .ask s => some s

/-- The admin filter of the suggestion loop (commands.py 169-170): a
command is considered iff it is not admin-only or the caller is admin. -/
def permitted (cmds : List Command) (isAdmin : Bool) : List Command :=
  cmds.filter (fun c => (c.admin && isAdmin) || !c.admin)

/-- The best/min accumulator loop of `_send_suggested_command`
(commands.py 165-174): `min_distance` starts at infinity (`Option.none`)
and a strictly smaller distance replaces the best suggestion. -/
def suggestFold (cmds : List Command) (isAdmin : Bool) (cand : String) :
    Option String × Option Nat :=
  cmds.foldl
    (fun acc c =>
      if (c.admin && isAdmin) || !c.admin then
        let d := levenshtein_distance cand c.name
        match acc.2 with
        | Option.none => (some c.name, some d)
        | some m => if d < m then (some c.name, some d) else acc
      else acc)
    (Option.none, Option.none)

/-- `CommandHandler._send_suggested_command` (commands.py 154-185): reject
inputs longer than 15 or shorter than 5 characters, scan for the
minimum-distance permitted command, reject when `min_distance >=
len(cand)` or `min_distance > 2` (an empty registry leaves `min_distance`
at infinity, which the first comparison rejects), then either auto-run the
best suggestion or reply asking about it. -/
def send_suggested_command (cmds : List Command) (isAdmin runMode : Bool)
    (cand : String) : SuggestOutcome :=
  if cand.length > 15 then .none
  else if cand.length < 5 then .none
  else
    let bm := suggestFold cmds isAdmin cand
    match bm.2, bm.1 with
    | some m, some b =>
      if cand.length ≤ m ∨ 2 < m then .none
      else if runMode then .autorun b else .ask b
    | _, _ => .none

/-- Minimum of a list of naturals, `Option.none` for the empty list. -/
def listMinNat : List Nat → Option Nat
  | [] => Option.none
  | x :: xs =>
    match listMinNat xs with
    | Option.none => some x
    | some m => some (min x m)

/-- Modelled from the spec, for comparison with `send_suggested_command`
(the suggestion step of §4.2, with the length interval corrected to be
inclusive at both ends as the code's own `> 15` / `< 5` guards make it):
compute the Levenshtein distance from the candidate to every command name
the caller is permitted to use, pick the minimum-distance name (ties
resolved by the first minimum in iteration order), and accept only if
`5 ≤ len(cand) ≤ 15`, `distance < len(cand)` and `distance ≤ 2`; the two
configured behaviors are auto-run and reply-asking. -/
def suggestSpec (cmds : List Command) (isAdmin runMode : Bool)
    (cand : String) : SuggestOutcome :=
  if cand.length < 5 ∨ 15 < cand.length then .none
  else
    let names := (permitted cmds isAdmin).map Command.name
    match listMinNat (names.map (levenshtein_distance cand)) with
    | Option.none => .none
    | some m =>
      if m < cand.length ∧ m ≤ 2 then
        match names.find? (fun n => levenshtein_distance cand n = m) with
        | some b => if runMode then .autorun b else .ask b
        | Option.none => .none
      else .none

/-! ### `CommandHandler._handle_command` (`commands.py` 101-152) -/

/-- How the command-dispatch path can terminate abnormally. -/
inductive PyErr where
  | exn : String → PyErr
  | indexError : PyErr
  deriving DecidableEq, Repr

/-- The dispatcher state the `_handle_command` path reads. -/
structure HandlerState where
  commands : List Command
  show_command_suggestion : Bool
  run_command_suggestion : Bool
  admins : List String
  mucs : List (String × MucConfig)
  deriving Repr

/-- Python `s.strip()`: drop leading and trailing whitespace. -/
def pyStrip (s : String) : String :=
  String.mk (((s.data.dropWhile Char.isWhitespace).reverse.dropWhile
    Char.isWhitespace).reverse)

/-- One character of Python `s.lower()` (ASCII range, which is all the
dispatcher ever compares). -/
def pyLowerChar (c : Char) : Char :=
  if 'A' ≤ c ∧ c ≤ 'Z' then Char.ofNat (c.toNat + 32) else c

/-- Python `s.lower()`. -/
def pyLower (s : String) : String := String.mk (s.data.map pyLowerChar)

/-- Python `s.startswith(p)`. -/
def pyStartsWith : List Char → List Char → Bool
  | _, [] => true
  | [], _ :: _ => false
  | c :: cs, p :: ps => c = p && pyStartsWith cs ps

/-- Worker for `pySplitWs`: collect maximal non-whitespace runs. -/
def pySplitWsGo : List Char → List Char → List String
  | [], acc => if acc = [] then [] else [String.mk acc.reverse]
  | c :: cs, acc =>
    if c.isWhitespace then
      if acc = [] then pySplitWsGo cs []
      else String.mk acc.reverse :: pySplitWsGo cs []
    else pySplitWsGo cs (c :: acc)

/-- Python `s.split()` with no argument: split on whitespace runs,
dropping empty pieces. -/
def pySplitWs (s : String) : List String := pySplitWsGo s.data []

/-- `jid in self.bot.admins` (a `None` jid is never an admin). -/
def isAdminJid (jid : Option String) (admins : List String) : Bool :=
  match jid with
  | some j => j ∈ admins
  | none => false

/-- The cooldown key `f"{muc}/{nick}" if muc else jid` (commands.py 33);
Python renders an absent value as `None`. -/
def pyUserKey (muc nick jid : Option String) : String :=
  match muc with
  | some m => m ++ "/" ++ nick.getD "None"
  | none => jid.getD "None"

/-- Lines 105-146 of `_handle_command`: prefix check, first-token
extraction (`body[len(prefix):].split()[0]` raises `IndexError` when only
whitespace follows the prefix), alias canonicalization, the suggestion
fallback for unresolved names, the per-room disabled/whitelist checks, and
the admin gate.  Returns the name of the command to execute, or `none` for
the `is_command = False` exits. -/
def resolve_command (st : HandlerState) (muc jid : Option String)
    (pfx body : String) : Except PyErr (Option String) :=
  let b := pyLower (pyStrip body)
  if ¬ (pyStartsWith b.data pfx.data = true ∧ pfx.data.length < b.data.length)
  then .ok none
  else
    match (pySplitWs (String.mk (b.data.drop pfx.data.length))).head? with
    | none => .error .indexError
    | some cand0 =>
      let cand := st.commands.foldl
        (fun n c => if n ∈ c.aliases then c.name else n) cand0
      let resolved : Option String :=
        if st.commands.any (fun c => c.name = cand) then some cand
        else if st.show_command_suggestion then
          match send_suggested_command st.commands (isAdminJid jid st.admins)
            st.run_command_suggestion cand with
          | .autorun s => some s
          | _ => none
        else none
      match resolved with
      | none => .ok none
      | some cn =>
        let mucOk :=
          match muc with
          | some m =>
            let cfg := mucCfg st.mucs m
            if cn ∈ cfgList cfg "disabled_commands" then false
            else match st.commands.find? (fun c => c.name = cn) with
              | some c =>
                if c.plugin ∈ cfgList cfg "disabled_plugins" then false
                else
                  match cfgListOpt cfg "whitelist_plugins" with
                  | some wl => c.plugin ∈ wl
                  | none => true
              | none => true
          | none => true
        if mucOk = false then .ok none
        else
          match st.commands.find? (fun c => c.name = cn) with
          | some c =>
            if (c.admin && isAdminJid jid st.admins) || !c.admin then
              .ok (some cn)
            else .ok none
          | none => .ok none

/-- `CommandHandler._handle_command` (commands.py 101-152): resolve the
message to a command, then `await self.commands[cmd_name].call(...)` with
no surrounding try/except — a handler exception escapes as the `.error`
first component.  The second component is the registry after the call
(Python mutates the command objects in place, so the timestamp write
survives even when the handler raises). -/
def handle_command (st : HandlerState) (muc nick jid : Option String)
    (pfx body : String) (now : ℚ) : Except PyErr Bool × List Command :=
  match resolve_command st muc jid pfx body with
  | .error e => (.error e, st.commands)
  | .ok none => (.ok false, st.commands)
  | .ok (some cn) =>
    match st.commands.find? (fun c => c.name = cn) with
    | none => (.ok false, st.commands)
    | some c =>
      let r := callFn st.commands c (pyUserKey muc nick jid) now
      match r.1 with
      | .raised e => (.error (.exn e), r.2)
      | _ => (.ok true, r.2)

/-- The fetched value of one field of a history entry, through
`get_history_message`. -/
def getEntryField (db : Store) (muc mid f : String) : Option Val :=
  (get_history_message db muc mid).bind (fun l => alookup l f)

/-- One step of the best/min scan of `_send_suggested_command`, without
the admin guard (the guard is factored out through `permitted`). -/
def suggestStep (cand : String) (acc : Option String × Option Nat)
    (c : Command) : Option String × Option Nat :=
  let d := levenshtein_distance cand c.name
  match acc.2 with
  | Option.none => (some c.name, some d)
  | some m => if d < m then (some c.name, some d) else acc

/-! ## Helper lemmas about the store and association lists -/

theorem dbGet_dbErase_ne (db : Store) (ns k f ns' k' f' : String)
    (h : ¬ (ns = ns' ∧ k = k' ∧ f = f')) :
    dbGet (dbErase db ns k f) ns' k' f' = dbGet db ns' k' f' := by
  induction db with
  | nil => rfl
  | cons r rest ih =>
    simp only [dbErase]
    by_cases hr : r.ns = ns ∧ r.key = k ∧ r.fld = f
    · have hq : ¬ (r.ns = ns' ∧ r.key = k' ∧ r.fld = f') := by
        rintro ⟨h1, h2, h3⟩
        exact h ⟨hr.1 ▸ h1, hr.2.1 ▸ h2, hr.2.2 ▸ h3⟩
      rw [if_pos hr, ih]
      simp only [dbGet]
      rw [if_neg hq]
    · rw [if_neg hr]
      simp only [dbGet]
      by_cases hq : r.ns = ns' ∧ r.key = k' ∧ r.fld = f'
      · rw [if_pos hq, if_pos hq]
      · rw [if_neg hq, if_neg hq, ih]

theorem dbGet_dbSet (db : Store) (ns k f : String) (v : Val)
    (ns' k' f' : String) :
    dbGet (dbSet db ns k f v) ns' k' f' =
      if ns = ns' ∧ k = k' ∧ f = f' then some v else dbGet db ns' k' f' := by
  by_cases h : ns = ns' ∧ k = k' ∧ f = f'
  · simp [dbSet, dbGet, h]
  · simp [dbSet, dbGet, h, dbGet_dbErase_ne db ns k f ns' k' f' h]

theorem dbGet_dbDeleteKey_ne_ns (db : Store) (ns k ns' k' f' : String)
    (h : ns ≠ ns') :
    dbGet (dbDeleteKey db ns k) ns' k' f' = dbGet db ns' k' f' := by
  induction db with
  | nil => rfl
  | cons r rest ih =>
    simp only [dbDeleteKey]
    by_cases hr : r.ns = ns ∧ r.key = k
    · have hq : ¬ (r.ns = ns' ∧ r.key = k' ∧ r.fld = f') := by
        rintro ⟨h1, _, _⟩
        exact h (hr.1 ▸ h1)
      rw [if_pos hr, ih]
      simp only [dbGet]
      rw [if_neg hq]
    · rw [if_neg hr]
      simp only [dbGet]
      by_cases hq : r.ns = ns' ∧ r.key = k' ∧ r.fld = f'
      · rw [if_pos hq, if_pos hq]
      · rw [if_neg hq, if_neg hq, ih]

theorem alookup_dbGetAllFields (db : Store) (ns k f : String) :
    alookup (dbGetAllFields db ns k) f = dbGet db ns k f := by
  induction db with
  | nil => rfl
  | cons r rest ih =>
    by_cases hr : r.ns = ns ∧ r.key = k
    · by_cases hf : r.fld = f
      · simp [dbGetAllFields, dbGet, alookup, hr, hf]
      · simp [dbGetAllFields, dbGet, alookup, hr, hf, ih]
    · have hq : ¬ (r.ns = ns ∧ r.key = k ∧ r.fld = f) := by
        rintro ⟨h1, h2, _⟩
        exact hr ⟨h1, h2⟩
      simp [dbGetAllFields, dbGet, hr, hq, ih]

theorem alookup_aupsert_self {α : Type} (m : List (String × α)) (k : String)
    (v : α) : alookup (aupsert m k v) k = some v := by
  induction m with
  | nil => simp [aupsert, alookup]
  | cons p rest ih =>
    by_cases h : p.1 = k
    · simp [aupsert, alookup, h]
    · simp [aupsert, alookup, h, ih]

theorem getEntryField_eq (db : Store) (muc mid f : String)
    (h : dbGet db "bot_chat_history" (muc ++ "_" ++ mid) "timestamp" ≠ none) :
    getEntryField db muc mid f =
      dbGet db "bot_chat_history" (muc ++ "_" ++ mid) f := by
  simp [getEntryField, get_history_message, h, alookup_dbGetAllFields]

theorem dbGet_nil (ns k f : String) : dbGet [] ns k f = none := rfl

/-- What `_store_correction_history` does to an entry that has never been
corrected (no `edit_timestamp`, no `edit_history`): the history key is the
original timestamp. -/
theorem store_correction_first (db : Store) (muc rid body' : String)
    (now : Int) (oldB oldTs : String)
    (hb : dbGet db "bot_chat_history" (muc ++ "_" ++ rid) "body"
      = some (.str oldB))
    (hts : dbGet db "bot_chat_history" (muc ++ "_" ++ rid) "timestamp"
      = some (.str oldTs))
    (hets : dbGet db "bot_chat_history" (muc ++ "_" ++ rid) "edit_timestamp"
      = none)
    (heh : dbGet db "bot_chat_history" (muc ++ "_" ++ rid) "edit_history"
      = none) :
    store_correction_history db muc rid body' now =
      dbSet (dbSet (dbSet db "bot_chat_history" (muc ++ "_" ++ rid) "body"
          (.str body'))
        "bot_chat_history" (muc ++ "_" ++ rid) "edit_timestamp"
          (.str (toString now)))
        "bot_chat_history" (muc ++ "_" ++ rid) "edit_history"
          (.jmap [(oldTs, some oldB)]) := by
  simp [store_correction_history, hb, hts, hets, heh, jsonLoadsMap,
    valTruthy, valStr, aupsert]

/-- What `_store_correction_history` does to an already-corrected entry:
the (nonempty) `edit_timestamp` is the history key for the old body. -/
theorem store_correction_again (db : Store) (muc rid body' : String)
    (now : Int) (oldB oldEts : String) (eh : List (String × Option String))
    (hb : dbGet db "bot_chat_history" (muc ++ "_" ++ rid) "body"
      = some (.str oldB))
    (hets : dbGet db "bot_chat_history" (muc ++ "_" ++ rid) "edit_timestamp"
      = some (.str oldEts))
    (hne : oldEts ≠ "")
    (heh : dbGet db "bot_chat_history" (muc ++ "_" ++ rid) "edit_history"
      = some (.jmap eh)) :
    store_correction_history db muc rid body' now =
      dbSet (dbSet (dbSet db "bot_chat_history" (muc ++ "_" ++ rid) "body"
          (.str body'))
        "bot_chat_history" (muc ++ "_" ++ rid) "edit_timestamp"
          (.str (toString now)))
        "bot_chat_history" (muc ++ "_" ++ rid) "edit_history"
          (.jmap (aupsert eh oldEts (some oldB))) := by
  simp [store_correction_history, hb, hets, heh, jsonLoadsMap,
    valTruthy, valStr, hne]

/-! ## Claim theorems -/

/-- C10: for every incoming reaction event, `handle_reactions` returns
before forwarding the event to any plugin — the guard tests the truthiness
of the bound-method object `_should_ignore_groupchat_message`, which is
always true, so the plugin fan-out for reactions is unreachable and no
plugin is ever invoked through this path. -/
theorem C10_theorem :
    (∀ (mucs : List (String × MucConfig)) (plugins : List Plugin)
      (muc : String), handle_reactions mucs plugins muc = []) ∧
    (PyAttr.boundMethod "_should_ignore_groupchat_message").truthy = true := by
  exact ⟨fun _ _ _ => rfl, rfl⟩

/-- C3 (code bug): a role-change presence event for user `u` in room `r`
persists the new role `"moderator"` to the Key-Field Store, but the
in-memory mirror entry for `(r, u)` still holds the old role
`"participant"` — the code assigned the new role to the top-level key
`"role"` of the outer dict instead — so after the event the mirror
disagrees with the store for `(r, u)`. -/
theorem C3_theorem :
    dbGet (handle_state_changes
        (save_user_state [] "r" "u" (some "participant") (some "none")
          (some "available") (some 50))
        [("r", .room [("u", ⟨"participant", "none", "available", "50"⟩)])]
        "r" "u" ⟨"participant", "none", "available", "50"⟩
        "moderator" "none" "available").1
      "bot_user_states" "r_u" "role" = some (.str "moderator") ∧
    alookup (roomOf (handle_state_changes
        (save_user_state [] "r" "u" (some "participant") (some "none")
          (some "available") (some 50))
        [("r", .room [("u", ⟨"participant", "none", "available", "50"⟩)])]
        "r" "u" ⟨"participant", "none", "available", "50"⟩
        "moderator" "none" "available").2 "r") "u"
      = some ⟨"participant", "none", "available", "50"⟩ ∧
    alookup (handle_state_changes
        (save_user_state [] "r" "u" (some "participant") (some "none")
          (some "available") (some 50))
        [("r", .room [("u", ⟨"participant", "none", "available", "50"⟩)])]
        "r" "u" ⟨"participant", "none", "available", "50"⟩
        "moderator" "none" "available").2 "role"
      = some (.raw "moderator") ∧
    ("participant" : String) ≠ "moderator" := by
  refine ⟨by decide, by decide, by decide, by decide⟩

/-- C4 (code bug): with room configuration `{"disabled_plugins": ["p"]}`,
the message fan-out still invokes plugin `p` for a groupchat message —
`_get_disabled_plugins_for_muc` reads the misspelled key
`"disabled=_plugins"` and so returns the empty list — and the presence
fan-out also still invokes `p` even when handed `["p"]` as the disabled
list, because it tests membership of the plugin *instance* in a list of
name strings (and consults no whitelist at all). -/
theorem C4_theorem :
    send_message_to_plugins [("room", [("disabled_plugins", .ls ["p"])])]
      [⟨"p", ["handle_groupchat_message"]⟩] "room" "groupchat_message"
      = ["p"] ∧
    get_disabled_plugins_for_muc [("room", [("disabled_plugins", .ls ["p"])])]
      "room" = [] ∧
    handle_presence_event [⟨"p", ["handle_role_change"]⟩] ["p"] "role_change"
      = ["p"] := by
  refine ⟨by decide, by decide, by decide⟩

/-- C1 (counterexample): a registered command `boom` whose handler raises
`"kaboom"` is dispatched through `_handle_command` (prefix `"."`, body
`".boom"`, sender passes the admin gate, no cooldown in effect) and the
dispatch call itself terminates with the propagated exception — it does
not complete normally, contradicting the claim that handler exceptions are
caught inside the dispatch path. -/
theorem C1_counterexample :
    (handle_command
      ⟨[⟨"boom", "p", none, [], 2, false, false, [], some "kaboom"⟩],
        true, true, [], []⟩
      none none (some "someone@example.org") "." ".boom" 100).1
      = .error (.exn "kaboom") := by
  have hres : resolve_command
      ⟨[⟨"boom", "p", none, [], 2, false, false, [], some "kaboom"⟩],
        true, true, [], []⟩
      none (some "someone@example.org") "." ".boom" = .ok (some "boom") := rfl
  have hf : List.find? (fun c => c.name = "boom")
      [(⟨"boom", "p", none, [], 2, false, false, [], some "kaboom"⟩ : Command)]
      = some ⟨"boom", "p", none, [], 2, false, false, [], some "kaboom"⟩ := rfl
  simp only [handle_command, hres, hf]
  simp only [callFn, effectiveLastUsed, lookupLU, alookup, pyUserKey]
  norm_num

/-- C2 (counterexample): recording the same groupchat message twice through
`_store_chat_history` (the live-message path), first at time 1 and again at
time 2, overwrites the `timestamp` field written first — the function
performs no previously-unseen check, so the second recording is not a
no-op. -/
theorem C2_counterexample :
    dbGet (store_chat_history
        (store_chat_history [] "r" "alice" "m1" "s1" "hello" none 1)
        "r" "alice" "m1" "s1" "hello" none 2)
      "bot_chat_history" "r_m1" "timestamp" = some (.str "2") ∧
    dbGet (store_chat_history [] "r" "alice" "m1" "s1" "hello" none 1)
      "bot_chat_history" "r_m1" "timestamp" = some (.str "1") ∧
    Val.str "2" ≠ Val.str "1" := by
  refine ⟨rfl, rfl, by decide⟩

set_option maxRecDepth 8000 in
/-- C5 (counterexample): the candidate `"aaaaaaaaaaaaaab"` has length
exactly 15 — outside the claimed inclusive-exclusive interval `[5,15)` —
yet against the registered command `"aaaaaaaaaaaaaaa"` (distance 1) a
suggestion *is* produced, because the source only rejects lengths
strictly greater than 15.  Also, the distance between `"hlep"` and
`"help"` under the code's Levenshtein routine is 2, not 1 as the claim
states (no suggestion is produced for it regardless, by the length
floor). -/
theorem C5_counterexample :
    send_suggested_command
      [⟨"aaaaaaaaaaaaaaa", "p", none, [], 2, false, false, [], none⟩]
      false true "aaaaaaaaaaaaaab" = .autorun "aaaaaaaaaaaaaaa" ∧
    ("aaaaaaaaaaaaaab".length = 15 ∧ ¬ "aaaaaaaaaaaaaab".length < 15) ∧
    levenshtein_distance "hlep" "help" = 2 ∧ (2 : ℕ) ≠ 1 := by
  refine ⟨by decide, ⟨by decide, by decide⟩, by decide, by decide⟩

/-- C2 (amended): the previously-unseen check exists only in the room-join
backfill path — `_process_chat_history` skips the store when
`get_history_message` already finds the entry, so a backfilled duplicate
of a non-correction message leaves the store unchanged — while
`_store_chat_history` itself (the live-message path) writes
unconditionally, so a replayed live message overwrites the stored fields;
in particular the `timestamp` field always ends up holding the time of the
latest write. -/
theorem C2_theorem :
    (∀ (db : Store) (muc : String) (m : HistMsg) (jid : Option String)
      (now : Int), get_history_message db muc m.mid ≠ none →
      m.replaceId = none → process_history_message db muc m jid now = db) ∧
    (∀ (db : Store) (muc nick mid sid body : String) (jid : Option String)
      (t : Int),
      dbGet (store_chat_history db muc nick mid sid body jid t)
        "bot_chat_history" (muc ++ "_" ++ mid) "timestamp"
        = some (.str (toString t))) := by
  constructor
  · intro db muc m jid now h1 h2
    simp [process_history_message, h1, h2]
  · intro db muc nick mid sid body jid t
    cases jid <;> simp [store_chat_history, dbGet_dbSet]

/-- C2 (witness): the backfill-idempotence half of `C2_theorem` applied to
a store already holding `(r, m1)`. -/
theorem C2_witness :
    get_history_message
      (store_chat_history [] "r" "alice" "m1" "s1" "hello" none 1) "r" "m1"
      ≠ none ∧
    process_history_message
      (store_chat_history [] "r" "alice" "m1" "s1" "hello" none 1) "r"
      ⟨"alice", "m1", "hello", "s1", none⟩ none 2
      = store_chat_history [] "r" "alice" "m1" "s1" "hello" none 1 :=
  ⟨by decide, C2_theorem.1 _ "r" ⟨"alice", "m1", "hello", "s1", none⟩ none 2
    (by decide) rfl⟩

/-- Writing a user state without a `first_seen` argument never touches the
`first_seen` field of any key. -/
theorem save_user_state_fs_none (db : Store) (muc user : String)
    (r a s : Option String) (k' : String) :
    dbGet (save_user_state db muc user r a s none) "bot_user_states" k'
      "first_seen" = dbGet db "bot_user_states" k' "first_seen" := by
  simp only [save_user_state]
  rcases r with _ | r <;> rcases a with _ | a <;> rcases s with _ | s <;>
    (repeat' split) <;> simp [dbGet_dbSet]

/-- `save_user_state` with a `first_seen` argument, rewritten through its
`first_seen`-free prefix (definitional). -/
theorem save_user_state_fs_some (db : Store) (muc user : String)
    (r a s : Option String) (t : Int) :
    save_user_state db muc user r a s (some t) =
      (if t ≠ 0 then
        (if valTruthy (dbGet (save_user_state db muc user r a s none)
            "bot_user_states" (muc ++ "_" ++ user) "first_seen") then
          save_user_state db muc user r a s none
        else
          dbSet (save_user_state db muc user r a s none) "bot_user_states"
            (muc ++ "_" ++ user) "first_seen" (.str (toString t)))
      else save_user_state db muc user r a s none) := rfl

/-- Rekeying a room map in the mirror exposes the moved state at the new
key. -/
theorem roomOf_aupsert_room (m : Mirror) (k : String)
    (r : List (String × UserState)) : roomOf (aupsert m k (.room r)) k = r := by
  simp [roomOf, alookup_aupsert_self]

/-- C8: once a stored `first_seen` exists for `(room, user)`, any later
`_save_user_state` call carrying a `first_seen` argument leaves the stored
value unchanged (the write is rejected as a no-op), and the
nickname-change rekeying neither loses the mirror's `first_seen` (the
whole state moves to the new nick) nor alters the stored `first_seen` of
the original key (its delete targets the unrelated `"user_states"`
namespace and its save carries no `first_seen`). -/
theorem C8_theorem (db : Store) (mirror : Mirror)
    (muc user newnick : String) (r a s : Option String) (t : Int)
    (st : UserState) (pR pA pS : String)
    (hfs : valTruthy (dbGet db "bot_user_states" (muc ++ "_" ++ user)
      "first_seen") = true)
    (hst : alookup (roomOf mirror muc) user = some st) :
    dbGet (save_user_state db muc user r a s (some t)) "bot_user_states"
      (muc ++ "_" ++ user) "first_seen"
      = dbGet db "bot_user_states" (muc ++ "_" ++ user) "first_seen" ∧
    alookup (roomOf (nick_change_step db mirror muc user newnick pR pA pS).2
      muc) newnick = some st ∧
    dbGet (nick_change_step db mirror muc user newnick pR pA pS).1
      "bot_user_states" (muc ++ "_" ++ user) "first_seen"
      = dbGet db "bot_user_states" (muc ++ "_" ++ user) "first_seen" := by
  refine ⟨?_, ?_, ?_⟩
  · rw [save_user_state_fs_some]
    by_cases ht : t ≠ 0
    · rw [if_pos ht, save_user_state_fs_none db muc user r a s, hfs]
      simp [save_user_state_fs_none]
    · rw [if_neg ht]
      exact save_user_state_fs_none db muc user r a s _
  · simp only [nick_change_step, hst]
    rw [roomOf_aupsert_room]
    exact alookup_aupsert_self _ _ _
  · simp only [nick_change_step, hst]
    rw [save_user_state_fs_none,
      dbGet_dbDeleteKey_ne_ns db "user_states" user "bot_user_states" _ _
        (by decide)]

/-- C8 (witness): `C8_theorem` applied to a store that already holds
`first_seen = 50` for `(r, u)` and a mirror holding `u`'s state. -/
theorem C8_witness :
    valTruthy (dbGet
      (save_user_state [] "r" "u" (some "participant") (some "none")
        (some "available") (some 50))
      "bot_user_states" ("r" ++ "_" ++ "u") "first_seen") = true ∧
    alookup (roomOf
      [("r", .room [("u",
        (⟨"participant", "none", "available", "50"⟩ : UserState))])] "r") "u"
      = some ⟨"participant", "none", "available", "50"⟩ ∧
    dbGet (save_user_state
      (save_user_state [] "r" "u" (some "participant") (some "none")
        (some "available") (some 50))
      "r" "u" none none none (some 99)) "bot_user_states"
      ("r" ++ "_" ++ "u") "first_seen"
      = dbGet (save_user_state [] "r" "u" (some "participant") (some "none")
        (some "available") (some 50)) "bot_user_states" ("r" ++ "_" ++ "u")
        "first_seen" :=
  ⟨by decide, by decide,
    ( C8_theorem
      (save_user_state [] "r" "u" (some "participant") (some "none")
        (some "available") (some 50))
      [("r", .room [("u", ⟨"participant", "none", "available", "50"⟩)])]
      "r" "u" "v" none none none 99
      ⟨"participant", "none", "available", "50"⟩ "participant" "none"
      "available" (by decide) (by decide)).1⟩

/-- C9: recording `"hello"` for `(R, m1)` at `t0` and then applying a
correction with new body `"hello world"` at `t1` yields an entry whose
body is `"hello world"`, whose `edit_timestamp` is the correction time,
and whose edit-history map holds exactly one entry mapping the original
timestamp to `"hello"`; a further correction at `t2` uses the previous
`edit_timestamp` as the history key. -/
theorem C9_theorem (muc mid nick sid : String) (jid : Option String)
    (t0 t1 t2 : Int) (h01 : toString t0 ≠ toString t1)
    (h1e : toString t1 ≠ "") :
    getEntryField (store_correction_history
        (store_chat_history [] muc nick mid sid "hello" jid t0)
        muc mid "hello world" t1) muc mid "body"
      = some (.str "hello world") ∧
    getEntryField (store_correction_history
        (store_chat_history [] muc nick mid sid "hello" jid t0)
        muc mid "hello world" t1) muc mid "edit_timestamp"
      = some (.str (toString t1)) ∧
    getEntryField (store_correction_history
        (store_chat_history [] muc nick mid sid "hello" jid t0)
        muc mid "hello world" t1) muc mid "edit_history"
      = some (.jmap [(toString t0, some "hello")]) ∧
    getEntryField (store_correction_history (store_correction_history
        (store_chat_history [] muc nick mid sid "hello" jid t0)
        muc mid "hello world" t1) muc mid "hello again" t2) muc mid
        "edit_history"
      = some (.jmap [(toString t0, some "hello"),
          (toString t1, some "hello world")]) := by
  have hb : dbGet (store_chat_history [] muc nick mid sid "hello" jid t0)
      "bot_chat_history" (muc ++ "_" ++ mid) "body" = some (.str "hello") := by
    cases jid <;> simp [store_chat_history, dbGet_dbSet]
  have hts : dbGet (store_chat_history [] muc nick mid sid "hello" jid t0)
      "bot_chat_history" (muc ++ "_" ++ mid) "timestamp"
      = some (.str (toString t0)) := by
    cases jid <;> simp [store_chat_history, dbGet_dbSet]
  have hets : dbGet (store_chat_history [] muc nick mid sid "hello" jid t0)
      "bot_chat_history" (muc ++ "_" ++ mid) "edit_timestamp" = none := by
    cases jid <;> simp [store_chat_history, dbGet_dbSet, dbGet_nil]
  have heh : dbGet (store_chat_history [] muc nick mid sid "hello" jid t0)
      "bot_chat_history" (muc ++ "_" ++ mid) "edit_history" = none := by
    cases jid <;> simp [store_chat_history, dbGet_dbSet, dbGet_nil]
  have hdb2 := store_correction_first
    (store_chat_history [] muc nick mid sid "hello" jid t0) muc mid
    "hello world" t1 "hello" (toString t0) hb hts hets heh
  have h2b : dbGet (store_correction_history
      (store_chat_history [] muc nick mid sid "hello" jid t0)
      muc mid "hello world" t1) "bot_chat_history" (muc ++ "_" ++ mid) "body"
      = some (.str "hello world") := by
    rw [hdb2]
    simp [dbGet_dbSet]
  have h2ts : dbGet (store_correction_history
      (store_chat_history [] muc nick mid sid "hello" jid t0)
      muc mid "hello world" t1) "bot_chat_history" (muc ++ "_" ++ mid)
      "timestamp" = some (.str (toString t0)) := by
    rw [hdb2]
    simp [dbGet_dbSet, hts]
  have h2ets : dbGet (store_correction_history
      (store_chat_history [] muc nick mid sid "hello" jid t0)
      muc mid "hello world" t1) "bot_chat_history" (muc ++ "_" ++ mid)
      "edit_timestamp" = some (.str (toString t1)) := by
    rw [hdb2]
    simp [dbGet_dbSet]
  have h2eh : dbGet (store_correction_history
      (store_chat_history [] muc nick mid sid "hello" jid t0)
      muc mid "hello world" t1) "bot_chat_history" (muc ++ "_" ++ mid)
      "edit_history" = some (.jmap [(toString t0, some "hello")]) := by
    rw [hdb2]
    simp [dbGet_dbSet]
  have hdb3 := store_correction_again
    (store_correction_history
      (store_chat_history [] muc nick mid sid "hello" jid t0)
      muc mid "hello world" t1) muc mid "hello again" t2 "hello world"
    (toString t1) [(toString t0, some "hello")] h2b h2ets h1e h2eh
  have hup : aupsert [(toString t0, some "hello")] (toString t1)
      (some "hello world")
      = [(toString t0, some "hello"), (toString t1, some "hello world")] := by
    simp [aupsert, h01]
  have h3ts : dbGet (store_correction_history (store_correction_history
      (store_chat_history [] muc nick mid sid "hello" jid t0)
      muc mid "hello world" t1) muc mid "hello again" t2)
      "bot_chat_history" (muc ++ "_" ++ mid) "timestamp"
      = some (.str (toString t0)) := by
    rw [hdb3]
    simp [dbGet_dbSet, h2ts]
  refine ⟨?_, ?_, ?_, ?_⟩
  · rw [getEntryField_eq _ _ _ _ (by simp [h2ts])]
    exact h2b
  · rw [getEntryField_eq _ _ _ _ (by simp [h2ts])]
    exact h2ets
  · rw [getEntryField_eq _ _ _ _ (by simp [h2ts])]
    exact h2eh
  · rw [getEntryField_eq _ _ _ _ (by simp [h3ts])]
    rw [hdb3, hup]
    simp [dbGet_dbSet]

/-- C9 (witness): `C9_theorem` at room `r`, message `m1`, times 100, 200
and 300. -/
theorem C9_witness :
    toString (100 : Int) ≠ toString (200 : Int) ∧
    toString (200 : Int) ≠ "" ∧
    getEntryField (store_correction_history
        (store_chat_history [] "r" "alice" "m1" "s1" "hello" none 100)
        "r" "m1" "hello world" 200) "r" "m1" "body"
      = some (.str "hello world") :=
  ⟨by decide, by decide,
    ( C9_theorem "r" "m1" "alice" "s1" none 100 200 300 (by decide)
      (by decide)).1⟩

/-- C6 (counterexample): command `c` with a 2-second cooldown, last used by
`u` at time 0, invoked again at time 1: the attempt is rejected and the
notice states `statedSeconds (int(2 - 1)) = 2` remaining seconds, but
`⌈cooldown − elapsed⌉ = ⌈2 − 1⌉ = 1` — at a whole-second difference the
stated time is one more than the claimed ceiling. -/
theorem C6_counterexample :
    callFn [⟨"c", "p", none, [], 2, false, false, [("u", 0)], none⟩]
      ⟨"c", "p", none, [], 2, false, false, [("u", 0)], none⟩ "u" 1
      = (.notice 1 false,
        [⟨"c", "p", none, [], 2, false, false, [("u", 0)], none⟩]) ∧
    statedSeconds 1 = 2 ∧ ⌈(2 : ℚ) - ((1 : ℚ) - 0)⌉ = 1 ∧ (2 : ℤ) ≠ 1 := by
  refine ⟨?_, rfl, by norm_num, by decide⟩
  simp only [callFn, effectiveLastUsed, lookupLU, alookup]
  norm_num [pyInt]

/-- C6 (amended): when the effective last-used time is `U`'s previous
invocation `t1` of the command itself and the second attempt falls
strictly within the cooldown window, the attempt is rejected (the notice
is returned, no timestamp is written, and the handler is not run
regardless of its behaviour), and the notice states
`⌊cooldown − elapsed⌋ + 1` whole seconds — which equals
`⌈cooldown − elapsed⌉` whenever `cooldown − elapsed` is not a whole
number, and is one second more when it is. -/
theorem C6_theorem (cmds : List Command) (self : Command) (user : String)
    (t1 now : ℚ)
    (hprev : alookup self.lastUsed user = some t1)
    (heff : (effectiveLastUsed cmds self user).1 = t1)
    (hwin : now - t1 < self.cooldown) :
    callFn cmds self user now
      = (.notice ⌊self.cooldown - (now - t1)⌋
          (effectiveLastUsed cmds self user).2, cmds) ∧
    statedSeconds ⌊self.cooldown - (now - t1)⌋
      = ⌊self.cooldown - (now - t1)⌋ + 1 ∧
    ((∀ z : ℤ, (z : ℚ) ≠ self.cooldown - (now - t1)) →
      ⌊self.cooldown - (now - t1)⌋ + 1 = ⌈self.cooldown - (now - t1)⌉) := by
  refine ⟨?_, rfl, ?_⟩
  · simp only [callFn, heff]
    rw [if_pos hwin, pyInt, if_pos (by linarith)]
  · intro hz
    have h1 : ((⌊self.cooldown - (now - t1)⌋ : ℤ) : ℚ)
        < self.cooldown - (now - t1) :=
      lt_of_le_of_ne (Int.floor_le _) (hz _)
    have h2 := Int.lt_floor_add_one (self.cooldown - (now - t1))
    rw [eq_comm, Int.ceil_eq_iff]
    constructor
    · push_cast
      linarith
    · push_cast
      linarith

/-- C6 (witness): `C6_theorem` for a command with cooldown 2, previously
invoked at time ½, re-invoked at time 1: the rejection notice states
`⌊2 − ½⌋ + 1 = 2` seconds, and here `2 = ⌈3/2⌉` since `3/2` is not a
whole number. -/
theorem C6_witness :
    alookup ([("u", (1 : ℚ)/2)]) "u" = some ((1 : ℚ)/2) ∧
    (effectiveLastUsed
      [⟨"c", "p", none, [], 2, false, false, [("u", (1 : ℚ)/2)], none⟩]
      ⟨"c", "p", none, [], 2, false, false, [("u", (1 : ℚ)/2)], none⟩
      "u").1 = (1 : ℚ)/2 ∧
    (1 : ℚ) - (1 : ℚ)/2 < 2 ∧
    callFn [⟨"c", "p", none, [], 2, false, false, [("u", (1 : ℚ)/2)], none⟩]
      ⟨"c", "p", none, [], 2, false, false, [("u", (1 : ℚ)/2)], none⟩ "u" 1
      = (.notice ⌊(2 : ℚ) - ((1 : ℚ) - (1 : ℚ)/2)⌋
          (effectiveLastUsed
            [⟨"c", "p", none, [], 2, false, false, [("u", (1 : ℚ)/2)], none⟩]
            ⟨"c", "p", none, [], 2, false, false, [("u", (1 : ℚ)/2)], none⟩
            "u").2,
        [⟨"c", "p", none, [], 2, false, false, [("u", (1 : ℚ)/2)], none⟩]) :=
  ⟨by simp [alookup],
   by simp [effectiveLastUsed, lookupLU, alookup],
   by norm_num,
   ( C6_theorem
     [⟨"c", "p", none, [], 2, false, false, [("u", (1 : ℚ)/2)], none⟩]
     ⟨"c", "p", none, [], 2, false, false, [("u", (1 : ℚ)/2)], none⟩
     "u" ((1 : ℚ)/2) 1
     (by simp [alookup])
     (by simp [effectiveLastUsed, lookupLU, alookup])
     (by norm_num)).1⟩

/-- The guarded accumulator scan of `Command.call` computes the running
maximum of the nonnegative per-user timestamps. -/
theorem guardedFold_eq_max (user : String) (l : List Command) :
    ∀ (a : ℚ) (b : Bool), 0 ≤ a →
    (∀ c ∈ l, 0 ≤ lookupLU c.lastUsed user) →
    (l.foldl
      (fun acc c =>
        let lu := lookupLU c.lastUsed user
        if lu ≠ 0 ∧ acc.1 < lu then (lu, true) else acc) (a, b)).1
      = l.foldl (fun m c => max m (lookupLU c.lastUsed user)) a := by
  induction l with
  | nil => intro a b _ _; rfl
  | cons c rest ih =>
    intro a b ha hl
    simp only [List.foldl]
    by_cases hc : lookupLU c.lastUsed user ≠ 0 ∧ a < lookupLU c.lastUsed user
    · rw [if_pos hc, max_eq_right (le_of_lt hc.2)]
      exact ih _ _ (hl c (List.mem_cons_self c rest))
        (fun d hd => hl d (List.mem_cons_of_mem c hd))
    · have hle : lookupLU c.lastUsed user ≤ a := by
        by_cases h0 : lookupLU c.lastUsed user = 0
        · rw [h0]; exact ha
        · push_neg at hc
          exact hc h0
      rw [if_neg hc, max_eq_left hle]
      exact ih a b ha (fun d hd => hl d (List.mem_cons_of_mem c hd))

/-- The effective last-used time of a categorized command is the maximum
of its own per-user timestamp and every category member's timestamp
(timestamps being nonnegative epoch values). -/
theorem effectiveLastUsed_eq_max (cmds : List Command) (self : Command)
    (user : String) (cat : String) (hcat : self.category = some cat)
    (hnn0 : 0 ≤ lookupLU self.lastUsed user)
    (hnn : ∀ c ∈ categoryMembers cmds cat, 0 ≤ lookupLU c.lastUsed user) :
    (effectiveLastUsed cmds self user).1
      = (categoryMembers cmds cat).foldl
          (fun m c => max m (lookupLU c.lastUsed user))
          (lookupLU self.lastUsed user) := by
  simp only [effectiveLastUsed, hcat]
  exact guardedFold_eq_max user (categoryMembers cmds cat) _ false hnn0 hnn

/-- C7: for commands `c1`, `c2` sharing category `K`: the effective
last-used time checked for `c2` is the running maximum of `c2`'s own
timestamp and every category member's timestamp; an attempt strictly
within `c2`'s cooldown of that effective time is rejected with the notice
and no registry change; and a successful invocation of `c1` rewrites only
`c1`'s own `last_used` map, leaving every other command's entry in the
registry untouched. -/
theorem C7_theorem (cmds : List Command) (c1 c2 : Command) (user : String)
    (K : String) (now now' : ℚ)
    (hc1 : c1.category = some K) (hc2 : c2.category = some K)
    (hmem : c1 ∈ cmds)
    (hnn2 : 0 ≤ lookupLU c2.lastUsed user)
    (hnn : ∀ c ∈ categoryMembers cmds K, 0 ≤ lookupLU c.lastUsed user) :
    (effectiveLastUsed cmds c2 user).1
      = (categoryMembers cmds K).foldl
          (fun m c => max m (lookupLU c.lastUsed user))
          (lookupLU c2.lastUsed user) ∧
    (now - (effectiveLastUsed cmds c2 user).1 < c2.cooldown →
      callFn cmds c2 user now
        = (.notice
            (pyInt (c2.cooldown - (now - (effectiveLastUsed cmds c2 user).1)))
            (effectiveLastUsed cmds c2 user).2, cmds)) ∧
    (¬ (now' - (effectiveLastUsed cmds c1 user).1 < c1.cooldown) →
      ({ c1 with lastUsed := aupsert c1.lastUsed user now' }
          ∈ (callFn cmds c1 user now').2 ∧
        ∀ c ∈ cmds, c.name ≠ c1.name → c ∈ (callFn cmds c1 user now').2)) := by
  refine ⟨effectiveLastUsed_eq_max cmds c2 user K hc2 hnn2 hnn, ?_, ?_⟩
  · intro h
    simp only [callFn]
    rw [if_pos h]
  · intro h
    have hres : (callFn cmds c1 user now').2
        = updateCmd cmds c1.name
            (fun c => { c with lastUsed := aupsert c.lastUsed user now' }) := by
      simp only [callFn]
      rw [if_neg h]
      rcases hbeh : c1.behavior with _ | e <;> simp [hbeh]
    rw [hres]
    constructor
    · have hm := List.mem_map_of_mem
        (fun c => if c.name = c1.name then
          { c with lastUsed := aupsert c.lastUsed user now' } else c) hmem
      simpa [updateCmd] using hm
    · intro c hc hne
      have hm := List.mem_map_of_mem
        (fun c => if c.name = c1.name then
          { c with lastUsed := aupsert c.lastUsed user now' } else c) hc
      simpa [updateCmd, hne] using hm

/-- C7 (witness): `C7_theorem` for commands `alpha` and `beta` sharing
category `k`, with `alpha` last used by `u` at time 10: the effective
last-used time checked for `beta` is the category-wide running maximum. -/
theorem C7_witness :
    (⟨"alpha", "p", some "k", [], 2, false, false, [("u", 10)], none⟩
        : Command) ∈
      [(⟨"alpha", "p", some "k", [], 2, false, false, [("u", 10)], none⟩
          : Command),
        ⟨"beta", "p", some "k", [], 2, false, false, [], none⟩] ∧
    (0 : ℚ) ≤ lookupLU
      (Command.lastUsed ⟨"beta", "p", some "k", [], 2, false, false, [],
        none⟩) "u" ∧
    (effectiveLastUsed
      [(⟨"alpha", "p", some "k", [], 2, false, false, [("u", 10)], none⟩
          : Command),
        ⟨"beta", "p", some "k", [], 2, false, false, [], none⟩]
      ⟨"beta", "p", some "k", [], 2, false, false, [], none⟩ "u").1
      = (categoryMembers
          [(⟨"alpha", "p", some "k", [], 2, false, false, [("u", 10)], none⟩
              : Command),
            ⟨"beta", "p", some "k", [], 2, false, false, [], none⟩] "k").foldl
          (fun m c => max m (lookupLU c.lastUsed "u"))
          (lookupLU
            (Command.lastUsed ⟨"beta", "p", some "k", [], 2, false, false,
              [], none⟩) "u") := by
  have hnn : ∀ c ∈ categoryMembers
      [(⟨"alpha", "p", some "k", [], 2, false, false, [("u", 10)], none⟩
          : Command),
        ⟨"beta", "p", some "k", [], 2, false, false, [], none⟩] "k",
      (0 : ℚ) ≤ lookupLU c.lastUsed "u" := by
    intro c hc
    have hm := (List.mem_filter.mp hc).1
    simp only [List.mem_cons, List.not_mem_nil, or_false] at hm
    rcases hm with rfl | rfl <;> norm_num [lookupLU, alookup]
  refine ⟨List.mem_cons_self _ _, by norm_num [lookupLU, alookup], ?_⟩
  exact ( C7_theorem
    [(⟨"alpha", "p", some "k", [], 2, false, false, [("u", 10)], none⟩
        : Command),
      ⟨"beta", "p", some "k", [], 2, false, false, [], none⟩]
    ⟨"alpha", "p", some "k", [], 2, false, false, [("u", 10)], none⟩
    ⟨"beta", "p", some "k", [], 2, false, false, [], none⟩
    "u" "k" 0 0 rfl rfl (List.mem_cons_self _ _)
    (by norm_num [lookupLU, alookup]) hnn).1

/-- C1 (amended): when the message resolves to a registered command that
passes the permission checks and is outside its cooldown window, and the
command's handler raises, the exception propagates out of `Command.call`
and `_handle_command` to the caller — the dispatch call terminates with
the handler's exception instead of completing normally (only the admin
private-message entry point in `xmpp.py` wraps this call in a
try/except). -/
theorem C1_theorem (st : HandlerState) (muc nick jid : Option String)
    (pfx body : String) (now : ℚ) (c : Command) (e : String)
    (hres : resolve_command st muc jid pfx body = .ok (some c.name))
    (hfind : st.commands.find? (fun x => x.name = c.name) = some c)
    (hbeh : c.behavior = some e)
    (hcd : ¬ (now - (effectiveLastUsed st.commands c
      (pyUserKey muc nick jid)).1 < c.cooldown)) :
    (handle_command st muc nick jid pfx body now).1 = .error (.exn e) := by
  simp only [handle_command, hres, hfind]
  simp only [callFn]
  rw [if_neg hcd, hbeh]

/-- C1 (witness): `C1_theorem` at the `boom` command whose handler raises
`"kaboom"`, dispatched at time 50 with empty cooldown state. -/
theorem C1_witness :
    resolve_command
      ⟨[⟨"boom", "p", none, [], 2, false, false, [], some "kaboom"⟩],
        true, true, [], []⟩
      none (some "someone@example.org") "." ".boom"
      = .ok (some "boom") ∧
    (handle_command
      ⟨[⟨"boom", "p", none, [], 2, false, false, [], some "kaboom"⟩],
        true, true, [], []⟩
      none none (some "someone@example.org") "." ".boom" 50).1
      = .error (.exn "kaboom") :=
  ⟨rfl,
    C1_theorem
      ⟨[⟨"boom", "p", none, [], 2, false, false, [], some "kaboom"⟩],
        true, true, [], []⟩
      none none (some "someone@example.org") "." ".boom" 50
      ⟨"boom", "p", none, [], 2, false, false, [], some "kaboom"⟩ "kaboom"
      rfl rfl rfl
      (by
        simp only [effectiveLastUsed, lookupLU, alookup]
        norm_num)⟩

/-- The admin-guarded best/min scan is the unguarded scan over the
permitted commands. -/
theorem suggestFold_eq_perm (isAdmin : Bool) (cand : String) :
    ∀ (cmds : List Command) (acc : Option String × Option Nat),
    cmds.foldl
      (fun acc c =>
        if (c.admin && isAdmin) || !c.admin then
          let d := levenshtein_distance cand c.name
          match acc.2 with
          | Option.none => (some c.name, some d)
          | some m => if d < m then (some c.name, some d) else acc
        else acc) acc
      = (permitted cmds isAdmin).foldl (suggestStep cand) acc := by
  intro cmds
  induction cmds with
  | nil => intro acc; rfl
  | cons c rest ih =>
    intro acc
    simp only [List.foldl, permitted, List.filter_cons]
    by_cases hg : ((c.admin && isAdmin) || !c.admin) = true
    · rw [if_pos hg, if_pos hg]
      simp only [List.foldl]
      exact ih _
    · rw [if_neg hg, if_neg hg]
      exact ih acc

/-- `suggestFold` through `permitted`. -/
theorem suggestFold_eq_perm_fold (cmds : List Command) (isAdmin : Bool)
    (cand : String) :
    suggestFold cmds isAdmin cand
      = (permitted cmds isAdmin).foldl (suggestStep cand)
          (Option.none, Option.none) :=
  suggestFold_eq_perm isAdmin cand cmds _

/-- Closed form of the unguarded scan from a concrete best/min pair: the
minimum survives, and ties keep the earliest name. -/
theorem suggestStep_fold_some (cand : String) :
    ∀ (l : List Command) (b0 : String) (m0 : Nat),
    l.foldl (suggestStep cand) (some b0, some m0)
      = match listMinNat
          (l.map (fun c => levenshtein_distance cand c.name)) with
        | Option.none => (some b0, some m0)
        | some mr =>
          if mr < m0 then
            ((l.find? (fun c => levenshtein_distance cand c.name = mr)).map
              Command.name, some mr)
          else (some b0, some m0) := by
  intro l
  induction l with
  | nil => intro b0 m0; rfl
  | cons c rest ih =>
    intro b0 m0
    simp only [List.foldl, List.map]
    by_cases hd : levenshtein_distance cand c.name < m0
    · have hstep : suggestStep cand (some b0, some m0) c
          = (some c.name, some (levenshtein_distance cand c.name)) := by
        simp [suggestStep, hd]
      rw [hstep, ih]
      rcases hrm : listMinNat
          (rest.map (fun c => levenshtein_distance cand c.name)) with _ | mr
      · simp only [listMinNat, hrm, if_pos hd]
        simp [List.find?]
      · simp only [listMinNat, hrm]
        by_cases hmr : mr < levenshtein_distance cand c.name
        · rw [if_pos hmr, min_eq_right (le_of_lt hmr),
            if_pos (lt_trans hmr hd)]
          have hne : ¬ (levenshtein_distance cand c.name = mr) :=
            Nat.ne_of_gt hmr
          simp [List.find?, hne]
        · rw [if_neg hmr, min_eq_left (Nat.le_of_not_lt hmr), if_pos hd]
          simp [List.find?]
    · have hstep : suggestStep cand (some b0, some m0) c
          = (some b0, some m0) := by
        simp [suggestStep, hd]
      rw [hstep, ih]
      rcases hrm : listMinNat
          (rest.map (fun c => levenshtein_distance cand c.name)) with _ | mr
      · simp only [listMinNat, hrm, if_neg hd]
      · simp only [listMinNat, hrm]
        by_cases hmr2 : mr < m0
        · have hdm : mr < levenshtein_distance cand c.name :=
            lt_of_lt_of_le hmr2 (Nat.le_of_not_lt hd)
          rw [if_pos hmr2, min_eq_right (le_of_lt hdm), if_pos hmr2]
          have hne : ¬ (levenshtein_distance cand c.name = mr) :=
            Nat.ne_of_gt hdm
          simp [List.find?, hne]
        · rw [if_neg hmr2]
          have hnot : ¬ (min (levenshtein_distance cand c.name) mr < m0) := by
            rw [Nat.not_lt]
            exact le_min (Nat.le_of_not_lt hd) (Nat.le_of_not_lt hmr2)
          rw [if_neg hnot]

/-- The minimum of a list is attained. -/
theorem listMinNat_attained :
    ∀ (l : List Nat) (m : Nat), listMinNat l = some m → m ∈ l := by
  intro l
  induction l with
  | nil => intro m h; cases h
  | cons x xs ih =>
    intro m h
    simp only [listMinNat] at h
    rcases hxs : listMinNat xs with _ | mr
    · simp only [hxs] at h
      cases h
      exact List.mem_cons_self x xs
    · simp only [hxs] at h
      by_cases hle : x ≤ mr
      · rw [min_eq_left hle] at h
        cases h
        exact List.mem_cons_self x xs
      · rw [min_eq_right (Nat.le_of_not_le hle)] at h
        cases h
        exact List.mem_cons_of_mem x (ih _ hxs)

/-- When the permitted set is nonempty, `suggestFold` returns exactly the
minimum distance and the name of the first permitted command attaining
it. -/
theorem suggestFold_spec (cmds : List Command) (isAdmin : Bool)
    (cand : String) (c : Command) (rest : List Command)
    (hp : permitted cmds isAdmin = c :: rest) :
    ∃ m b, listMinNat ((c :: rest).map
        (fun x => levenshtein_distance cand x.name)) = some m ∧
      (c :: rest).find? (fun x => levenshtein_distance cand x.name = m)
        = some b ∧
      suggestFold cmds isAdmin cand = (some b.name, some m) := by
  have hfold : suggestFold cmds isAdmin cand
      = rest.foldl (suggestStep cand)
          (some c.name, some (levenshtein_distance cand c.name)) := by
    rw [suggestFold_eq_perm_fold, hp]
    rfl
  rw [hfold, suggestStep_fold_some cand rest c.name _]
  rcases hrm : listMinNat
      (rest.map (fun x => levenshtein_distance cand x.name)) with _ | mr
  · refine ⟨levenshtein_distance cand c.name, c, ?_, ?_, ?_⟩
    · simp only [List.map, listMinNat, hrm]
    · simp [List.find?]
    · simp only [hrm]
  · by_cases hmr : mr < levenshtein_distance cand c.name
    · have hmem := listMinNat_attained _ mr hrm
      rcases List.mem_map.mp hmem with ⟨x, hx, hxd⟩
      have hsome : (rest.find?
          (fun y => levenshtein_distance cand y.name = mr)).isSome := by
        rw [List.find?_isSome]
        exact ⟨x, hx, by simp [hxd]⟩
      rcases hb : rest.find? (fun y => levenshtein_distance cand y.name = mr)
          with _ | b
      · rw [hb] at hsome
        cases hsome
      · refine ⟨mr, b, ?_, ?_, ?_⟩
        · simp only [List.map, listMinNat, hrm,
            min_eq_right (le_of_lt hmr)]
        · have hne : ¬ (levenshtein_distance cand c.name = mr) :=
            Nat.ne_of_gt hmr
          simp [List.find?, hne, hb]
        · simp only [hrm]
          rw [if_pos hmr, hb]
          rfl
    · refine ⟨levenshtein_distance cand c.name, c, ?_, ?_, ?_⟩
      · simp only [List.map, listMinNat, hrm,
          min_eq_left (Nat.le_of_not_lt hmr)]
      · simp [List.find?]
      · simp only [hrm]
        rw [if_neg hmr]

/-- C5 (amended): the suggestion routine coincides with its specification
— reject candidates shorter than 5 or longer than 15 characters (the
interval is inclusive at *both* ends), compute the Levenshtein distance
to every command name the caller may use, pick the minimum with ties
resolved by the first minimum in iteration order, and accept only when
the minimum is strictly below the candidate's length and at most 2 —
and, concretely, the length-4 input `"hlep"` against registered command
`"help"` produces no suggestion. -/
theorem C5_theorem :
    (∀ (cmds : List Command) (isAdmin runMode : Bool) (cand : String),
      send_suggested_command cmds isAdmin runMode cand
        = suggestSpec cmds isAdmin runMode cand) ∧
    (∀ (a r : Bool),
      send_suggested_command
        [⟨"help", "default_plugin", none, [], 2, false, false, [], none⟩]
        a r "hlep" = .none) := by
  constructor
  · intro cmds isAdmin runMode cand
    by_cases h15 : cand.length > 15
    · have hor : cand.length < 5 ∨ 15 < cand.length := Or.inr h15
      simp [send_suggested_command, suggestSpec, h15, hor]
    · by_cases h5 : cand.length < 5
      · have hor : cand.length < 5 ∨ 15 < cand.length := Or.inl h5
        simp [send_suggested_command, suggestSpec, h15, h5, hor]
      · have hnor : ¬ (cand.length < 5 ∨ 15 < cand.length) := by
          push_neg
          exact ⟨Nat.le_of_not_lt h5, Nat.le_of_not_lt h15⟩
        rcases hp : permitted cmds isAdmin with _ | ⟨c, rest⟩
        · have hfold : suggestFold cmds isAdmin cand
              = (Option.none, Option.none) := by
            rw [suggestFold_eq_perm_fold, hp]
            rfl
          simp [send_suggested_command, suggestSpec, h15, h5, hnor, hfold,
            hp, listMinNat]
        · obtain ⟨m, b, hmin, hfind, hfold⟩ :=
            suggestFold_spec cmds isAdmin cand c rest hp
          have hnames : listMinNat
              (((permitted cmds isAdmin).map Command.name).map
                (levenshtein_distance cand)) = some m := by
            rw [hp, List.map_map]
            exact hmin
          have hfindn : ((permitted cmds isAdmin).map Command.name).find?
              (fun n => levenshtein_distance cand n = m) = some b.name := by
            rw [hp, List.find?_map]
            simp only [Function.comp_def]
            rw [hfind]
            rfl
          simp only [send_suggested_command, suggestSpec, hfold]
          rw [if_neg h15, if_neg h5, if_neg hnor]
          simp only [hnames, hfindn]
          by_cases hacc : m < cand.length ∧ m ≤ 2
          · rw [if_pos hacc,
              if_neg (by
                rw [not_or]
                exact ⟨Nat.not_le.mpr hacc.1, Nat.not_lt.mpr hacc.2⟩)]
          · rw [if_neg hacc,
              if_pos (by
                rcases Decidable.not_and_iff_or_not.mp hacc with h | h
                · exact Or.inl (Nat.le_of_not_lt h)
                · exact Or.inr (Nat.lt_of_not_le h))]
  · intro a r
    cases a <;> cases r <;> decide

end Nokotan
